import Mathlib

/-!
Shallow embedding of the data-preparation pipeline of `src/main.py`
(a Streamlit dashboard over the CNC "millionaire movies" dataset).

The embedded operations, in pipeline order:

* `renameRang` — per-sheet column renaming (`main.py` lines 19–21):
  if some column is labeled "Unnamed: 0", rename every column carrying the
  first column's label to "rang" (that is pandas `df.rename` semantics:
  renaming is by label, applied to all columns with that label).
* `pop` / `drop_useless_sheets` — `df_dict.pop("Sommaire")` and
  `df_dict.pop("ESRI_MAPINFO_SHEET")` (lines 24–25); Python `dict.pop`
  with no default raises `KeyError` when the key is absent, modelled by
  `Option`.
* `parseDate` / `to_datetime` — `pd.to_datetime(df["sortie"], format="%d/%m/%Y")`
  (line 29): strict day/month/year parsing of the whole column; any
  non-matching cell raises, aborting the run, modelled by `Option`.
* `nationality_mapping` / `encode_nationality` — lines 36–79: split on "/",
  map each stripped component through the lookup table, falling back to the
  original (unstripped) component, and rejoin with " / ".
* `groupAgg` / `sort_values_desc` / `canonicalize` — lines 98–99:
  `df.groupby("titre").agg(entrées := sum, nationalité := first, sortie := first)
     .sort_values(by="entrées", ascending=False)`.
  pandas `groupby` with its default `sort=True` emits groups in ascending
  order of the key; `agg "first"` takes the first group member in original
  row order; `sort_values(..., ascending=False)` computes an ascending
  argsort of the column and reverses it (pandas `nargsort` reverses the
  indexer for `ascending=False`), so it is modelled as a stable ascending
  sort followed by `List.reverse`.
* `df_decade` — lines 110–122: the decade frames are built from `df`, the
  *already aggregated* table, filtered by `sortie.dt.year.between lo hi`
  (inclusive on both ends), then grouped/aggregated/sorted again.
-/

set_option maxRecDepth 100000

namespace DataVz

/-- A calendar date at day precision, as produced by `pd.to_datetime`. -/
structure Date where
  year : Nat
  month : Nat
  day : Nat
deriving DecidableEq, Repr

/-- One row of the concatenated movie table: title, admissions in millions
(`entrées`), nationality text, release date (`sortie`). -/
structure Row where
  titre : String
  entrees : ℚ
  nationalite : String
  sortie : Date
deriving DecidableEq, Repr

/-! ### Sheet-level column renaming (`main.py` lines 19–21) -/

/-- For one sheet's column labels: if some column is labeled "Unnamed: 0",
rename to "rang" every column whose label equals the first column's label
(pandas `df.rename(columns=\x7bdf.columns[0]: "rang"\x7d)` renames by label). -/
def renameRang (cols : List String) : List String :=
  if "Unnamed: 0" ∈ cols then
    match cols with
    | [] => []
    | c :: rest => (c :: rest).map (fun x => if x = c then "rang" else x)
  else cols

/-! ### Dropping the two non-data sheets (`main.py` lines 24–25) -/

/-- Python `dict.pop(key)` without a default: remove the entry with the given
key, or fail (`KeyError`) when no such key exists.  The workbook is a
key-ordered association list with unique sheet names. -/
def pop {α : Type} (key : String) (d : List (String × α)) : Option (List (String × α)) :=
  if d.any (fun p => p.1 == key) then some (d.filter (fun p => p.1 != key)) else none

/-- Lines 24–25: pop "Sommaire", then pop "ESRI_MAPINFO_SHEET"; either
missing key aborts the load. -/
def drop_useless_sheets {α : Type} (d : List (String × α)) : Option (List (String × α)) :=
  (pop "Sommaire" d).bind (pop "ESRI_MAPINFO_SHEET")

/-! ### Character-level models of the Python string builtins

Python's `value.split('/')`, `str.strip()` and `' / '.join(...)` are modelled
by structural recursion over the character list of a string, so that every
definition evaluates by kernel reduction. -/

/-- Python `split` on one character, over a character list: splitting the
empty text yields one empty field, and every separator occurrence starts a
new field (so adjacent separators yield empty fields, as in Python). -/
def splitCharList (sep : Char) : List Char → List (List Char)
  | [] => [[]]
  | c :: rest =>
    match splitCharList sep rest with
    | [] => [[]]
    | g :: gs => if c = sep then [] :: g :: gs else (c :: g) :: gs

/-- Python `value.split('/')`. -/
def split_slash (s : String) : List String :=
  (splitCharList '/' s.data).map String.mk

/-- Python `str.strip()`: remove leading and trailing whitespace. -/
def strip (s : String) : String :=
  String.mk (((s.data.dropWhile Char.isWhitespace).reverse.dropWhile Char.isWhitespace).reverse)

/-- Python `sep.join(xs)`. -/
def join_with (sep : String) : List String → String
  | [] => ""
  | x :: xs => xs.foldl (fun acc y => acc ++ sep ++ y) x

/-! ### Strict date parsing (`main.py` line 29) -/

/-- The literal lookup table of `main.py` lines 36–71, in declaration order. -/
def nationality_mapping : List (String × String) :=
  [("ETATS UNIS", "US"), ("USA", "US"), ("US", "US"),
   ("GRANDE BRETAGNE", "GB"), ("GB", "GB"), ("FRANCE", "FR"), ("FR", "FR"),
   ("CANADA", "CA"), ("CA", "CA"), ("AUSTRALIE", "AU"), ("AU", "AU"),
   ("COREE DU SUD", "KS"), ("KS", "KS"),
   ("ITALIE", "IT"), ("IT", "IT"), ("MAROC", "MA"), ("NOUVELLE ZELANDE", "NZ"),
   ("ALLEMAGNE", "DE"), ("DE", "DE"), ("BELGIQUE", "BE"), ("BE", "BE"),
   ("LUXEMBOURG", "LUX"), ("LUX", "LUX"), ("REPUBLIQUE TCHEQUE", "CZ"),
   ("HONGRIE", "HU"), ("ESPAGNE", "ES"), ("ROUMANIE", "RO"),
   ("SUEDE", "SE"), ("SUISSE", "CH"), ("PAYS-BAS", "NL")]

/-- Lines 75–79: split the value on "/", map each component through
`nationality_mapping.get(component.strip(), component)` — note the fallback
is the original, unstripped component — and rejoin with " / ". -/
def encode_nationality (value : String) : String :=
  let countries := split_slash value
  let countries :=
    countries.map (fun country => (nationality_mapping.lookup (strip country)).getD country)
  join_with " / " countries

/-! ### Grouping, aggregation and sorting (`main.py` lines 98–99) -/

/-- Comparison used by `sort_values(by="entrées")`: by the admissions value. -/
def rowLE (a b : Row) : Prop := a.entrees ≤ b.entrees

instance : DecidableRel rowLE := fun a b => inferInstanceAs (Decidable (a.entrees ≤ b.entrees))

instance : IsTotal Row rowLE := ⟨fun a b => le_total a.entrees b.entrees⟩

instance : IsTrans Row rowLE := ⟨fun _ _ _ h1 h2 => le_trans h1 h2⟩

/-- Code-point lexicographic comparison of character lists: the string order
used by pandas when sorting group keys. -/
def lexLeChars : List Char → List Char → Bool
  | [], _ => true
  | _ :: _, [] => false
  | a :: as, b :: bs => if a = b then lexLeChars as bs else decide (a.toNat < b.toNat)

/-- Title order for group keys: code-point lexicographic. -/
def titleLE (a b : String) : Prop := lexLeChars a.data b.data = true

instance : DecidableRel titleLE :=
  fun a b => inferInstanceAs (Decidable (lexLeChars a.data b.data = true))

/-- The group keys emitted by `df.groupby("titre")`: the distinct titles, in
ascending order of the title (pandas `groupby` defaults to `sort=True`). -/
def keys (rows : List Row) : List String :=
  List.insertionSort titleLE (rows.map (fun r => r.titre)).dedup

/-- The first row of a group in original row order, as read by `agg "first"`. -/
def firstIn (rows : List Row) (t : String) : Option Row :=
  rows.find? (fun r => r.titre == t)

/-- The aggregated row of the group of title `t`: summed admissions,
first-seen nationality and release date. -/
def aggRow (rows : List Row) (t : String) (r0 : Row) : Row :=
  { titre := t
    entrees := ((rows.filter (fun r => r.titre == t)).map (fun r => r.entrees)).sum
    nationalite := r0.nationalite
    sortie := r0.sortie }

/-- `df.groupby("titre").agg(entrées := "sum", nationalité := "first",
sortie := "first")`: one aggregated row per distinct title, keys ascending. -/
def groupAgg (rows : List Row) : List Row :=
  (keys rows).filterMap (fun t => (firstIn rows t).map (aggRow rows t))

/-- `sort_values(by="entrées", ascending=False)`: pandas takes an ascending
argsort of the column and reverses the indexer.  The default sort kind
(quicksort) is unstable, so the program fixes no particular order among rows
with equal admissions; the embedding determinizes the ascending argsort as a
stable sort (numpy's actual behavior on small arrays, where introsort falls
back to insertion sort).  Properties proved about the sorted tables hold up
to permutation or concern only the admissions ordering, except where a
concrete counterexample instantiates the sort at a small input on which
numpy's sort is stable. -/
def sort_values_desc (l : List Row) : List Row :=
  (List.insertionSort rowLE l).reverse

/-- Lines 98–99: group by title, aggregate, sort descending by admissions. -/
def canonicalize (rows : List Row) : List Row :=
  sort_values_desc (groupAgg rows)

/-- Lines 110–122: a decade frame filters its input table by
`sortie.dt.year.between lo hi` (inclusive on both ends) and re-runs the
grouping, aggregation and sort.  In the source the input is `df`, the
already-aggregated canonical table. -/
def df_decade (lo hi : Nat) (df : List Row) : List Row :=
  canonicalize (df.filter (fun r => lo ≤ r.sortie.year && r.sortie.year ≤ hi))

/-! ### Basic facts about grouping and sorting -/

theorem keys_mem {rows : List Row} {t : String} :
    t ∈ keys rows ↔ t ∈ rows.map (fun r => r.titre) := by
  unfold keys
  rw [(List.perm_insertionSort titleLE _).mem_iff, List.mem_dedup]

theorem keys_nodup (rows : List Row) : (keys rows).Nodup := by
  unfold keys
  exact ((List.perm_insertionSort titleLE _).nodup_iff).mpr (List.nodup_dedup _)

theorem firstIn_eq_some {rows : List Row} {t : String}
    (h : t ∈ rows.map (fun r => r.titre)) : ∃ r0, firstIn rows t = some r0 := by
  rcases List.mem_map.mp h with ⟨x, hx, hxt⟩
  cases hfi : firstIn rows t with
  | some r0 => exact ⟨r0, rfl⟩
  | none =>
    unfold firstIn at hfi
    rw [List.find?_eq_none] at hfi
    have := hfi x hx
    simp [hxt] at this

theorem firstIn_elim {rows : List Row} {t : String} {r0 : Row}
    (h : firstIn rows t = some r0) : r0 ∈ rows ∧ r0.titre = t := by
  unfold firstIn at h
  exact ⟨List.mem_of_find?_eq_some h, by simpa using List.find?_some h⟩

theorem mem_groupAgg {rows : List Row} {r : Row} :
    r ∈ groupAgg rows ↔
      ∃ t, t ∈ keys rows ∧ ∃ r0, firstIn rows t = some r0 ∧ r = aggRow rows t r0 := by
  unfold groupAgg
  rw [List.mem_filterMap]
  constructor
  · rintro ⟨t, ht, hf⟩
    rcases Option.map_eq_some'.mp hf with ⟨r0, hr0, hr⟩
    exact ⟨t, ht, r0, hr0, hr.symm⟩
  · rintro ⟨t, ht, r0, h0, hr⟩
    exact ⟨t, ht, by rw [h0, Option.map_some', hr]⟩

theorem filterMap_agg_titles (rows : List Row) :
    ∀ ts : List String, (∀ t ∈ ts, t ∈ rows.map (fun r => r.titre)) →
      (ts.filterMap (fun t => (firstIn rows t).map (aggRow rows t))).map (fun r => r.titre)
        = ts := by
  intro ts
  induction ts with
  | nil => intro _; rfl
  | cons t ts ih =>
    intro h
    rcases firstIn_eq_some (h t (by simp)) with ⟨r0, hr0⟩
    simp [List.filterMap_cons, hr0, aggRow, ih (fun u hu => h u (by simp [hu]))]

theorem groupAgg_titles (rows : List Row) :
    (groupAgg rows).map (fun r => r.titre) = keys rows :=
  filterMap_agg_titles rows (keys rows) (fun _ ht => keys_mem.mp ht)

theorem sort_values_desc_perm (l : List Row) : List.Perm (sort_values_desc l) l :=
  (List.reverse_perm _).trans (List.perm_insertionSort rowLE l)

theorem mem_canonicalize {rows : List Row} {r : Row} :
    r ∈ canonicalize rows ↔ r ∈ groupAgg rows :=
  (sort_values_desc_perm (groupAgg rows)).mem_iff

/-! ### Example inputs

`sampleDup` is the spec's running example: one film with a normalized row in
December 2009 (3.0 million admissions) and one in January 2010 (2.0 million).
`sampleTie` has two distinct titles with equal admissions. -/

def sampleDup : List Row :=
  [⟨"FILM", 3, "US", ⟨2009, 12, 15⟩⟩, ⟨"FILM", 2, "US", ⟨2010, 1, 10⟩⟩]

def sampleTie : List Row :=
  [⟨"A", 1, "US", ⟨2005, 1, 1⟩⟩, ⟨"B", 1, "FR", ⟨2006, 1, 1⟩⟩]

/-! ### The claims -/

/-- C3: for every title appearing in the normalized table, the canonical
(post-aggregation) table has a row for that title whose admissions equal
exactly the sum of the admissions of all normalized rows carrying it. -/
theorem C3_canonical_admissions_are_group_sums (rows : List Row) (t : String)
    (h : t ∈ rows.map (fun r => r.titre)) :
    ∃ r ∈ canonicalize rows, r.titre = t ∧
      r.entrees = ((rows.filter (fun x => x.titre == t)).map (fun x => x.entrees)).sum := by
  rcases firstIn_eq_some h with ⟨r0, hr0⟩
  exact ⟨aggRow rows t r0,
    mem_canonicalize.mpr (mem_groupAgg.mpr ⟨t, keys_mem.mpr h, r0, hr0, rfl⟩), rfl, rfl⟩

/-- Witness for C3 on the spec's duplicate-title example: title "FILM" occurs,
and its canonical admissions are the sum 3 + 2 of its two rows. -/
theorem C3_witness :
    "FILM" ∈ sampleDup.map (fun r => r.titre) ∧
      ∃ r ∈ canonicalize sampleDup, r.titre = "FILM" ∧
        r.entrees =
          ((sampleDup.filter (fun x => x.titre == "FILM")).map (fun x => x.entrees)).sum :=
  ⟨by decide, C3_canonical_admissions_are_group_sums sampleDup "FILM" (by decide)⟩

/-- C4: every canonical row takes its nationality and release date from the
first normalized row of its title, in normalized-table order. -/
theorem C4_first_seen_wins (rows : List Row) (r : Row) (h : r ∈ canonicalize rows) :
    ∃ x, rows.find? (fun y => y.titre == r.titre) = some x ∧
      r.nationalite = x.nationalite ∧ r.sortie = x.sortie := by
  rcases mem_groupAgg.mp (mem_canonicalize.mp h) with ⟨t, _, r0, h0, hr⟩
  subst hr
  exact ⟨r0, h0, rfl, rfl⟩

/-- Witness for C4 on the duplicate-title example: the canonical row of
"FILM" (admissions 5) carries the date of the first 2009 row. -/
theorem C4_witness :
    (⟨"FILM", 5, "US", ⟨2009, 12, 15⟩⟩ : Row) ∈ canonicalize sampleDup ∧
      ∃ x, sampleDup.find? (fun y => y.titre == (⟨"FILM", 5, "US", ⟨2009, 12, 15⟩⟩ : Row).titre)
          = some x ∧
        (⟨"FILM", 5, "US", ⟨2009, 12, 15⟩⟩ : Row).nationalite = x.nationalite ∧
        (⟨"FILM", 5, "US", ⟨2009, 12, 15⟩⟩ : Row).sortie = x.sortie :=
  ⟨by with_unfolding_all decide,
    C4_first_seen_wins sampleDup _ (by with_unfolding_all decide)⟩

theorem canonicalize_titles_nodup (rows : List Row) :
    ((canonicalize rows).map (fun r => r.titre)).Nodup := by
  have hperm :
      List.Perm ((canonicalize rows).map (fun r => r.titre))
        ((groupAgg rows).map (fun r => r.titre)) :=
    (sort_values_desc_perm (groupAgg rows)).map _
  exact hperm.nodup_iff.mpr (by rw [groupAgg_titles]; exact keys_nodup rows)

theorem nodup_filter_titre {l : List Row} (hnd : (l.map (fun r => r.titre)).Nodup)
    {r : Row} (hr : r ∈ l) :
    l.filter (fun x => x.titre == r.titre) = [r] ∧
      l.find? (fun x => x.titre == r.titre) = some r := by
  induction l with
  | nil => cases hr
  | cons x tl ih =>
    rw [List.map_cons, List.nodup_cons] at hnd
    obtain ⟨hx, hnd'⟩ := hnd
    rcases List.mem_cons.mp hr with hrx | hrtl
    · subst hrx
      have hnil : tl.filter (fun y => y.titre == r.titre) = [] := by
        rw [List.filter_eq_nil_iff]
        intro y hy hyr
        exact hx (List.mem_map.mpr ⟨y, hy, by simpa using hyr⟩)
      exact ⟨by rw [List.filter_cons_of_pos (by simp), hnil],
        List.find?_cons_of_pos _ (by simp)⟩
    · have hxr : (x.titre == r.titre) = false := by
        rw [beq_eq_false_iff_ne]
        exact fun he => hx (he ▸ List.mem_map.mpr ⟨r, hrtl, rfl⟩)
      obtain ⟨h1, h2⟩ := ih hnd' hrtl
      exact ⟨by simp only [List.filter_cons, hxr]; simpa using h1,
        by simp only [List.find?_cons, hxr]; exact h2⟩

/-- C1 (amended): a decade frame is the aggregated table filtered by the
canonical first-seen release year.  Every canonical row whose first-seen year
lies in `[lo, hi]` reappears unchanged — full all-time admissions included —
in the decade frame, and a canonical row whose first-seen year lies outside
the range has no row for its title in that frame at all. -/
theorem C1_decade_views_filter_aggregated_table (rows : List Row) (lo hi : Nat)
    (r : Row) (h : r ∈ canonicalize rows) :
    (lo ≤ r.sortie.year ∧ r.sortie.year ≤ hi →
      r ∈ df_decade lo hi (canonicalize rows)) ∧
    (¬ (lo ≤ r.sortie.year ∧ r.sortie.year ≤ hi) →
      ∀ x ∈ df_decade lo hi (canonicalize rows), x.titre ≠ r.titre) := by
  have hnd := canonicalize_titles_nodup rows
  constructor
  · intro hin
    have hrf : r ∈ (canonicalize rows).filter
        (fun x => lo ≤ x.sortie.year && x.sortie.year ≤ hi) :=
      List.mem_filter.mpr ⟨h, by simp [hin.1, hin.2]⟩
    have hndf : (((canonicalize rows).filter
        (fun x => lo ≤ x.sortie.year && x.sortie.year ≤ hi)).map
          (fun r => r.titre)).Nodup :=
      hnd.sublist ((List.filter_sublist _).map _)
    obtain ⟨hfil, hfind⟩ := nodup_filter_titre hndf hrf
    have hagg : aggRow ((canonicalize rows).filter
        (fun x => lo ≤ x.sortie.year && x.sortie.year ≤ hi)) r.titre r = r := by
      unfold aggRow
      rw [hfil]
      cases r
      simp
    have hkey : r.titre ∈ keys ((canonicalize rows).filter
        (fun x => lo ≤ x.sortie.year && x.sortie.year ≤ hi)) :=
      keys_mem.mpr (List.mem_map.mpr ⟨r, hrf, rfl⟩)
    exact mem_canonicalize.mpr (mem_groupAgg.mpr ⟨r.titre, hkey, r, hfind, hagg.symm⟩)
  · intro hout x hx hxt
    rcases mem_groupAgg.mp (mem_canonicalize.mp hx) with ⟨t, ht, r0, h0, hxr⟩
    have hxt' : x.titre = t := by rw [hxr]; rfl
    rcases List.mem_map.mp (keys_mem.mp ht) with ⟨y, hy, hyt⟩
    have hyf := List.mem_filter.mp hy
    have hyr : y = r :=
      List.inj_on_of_nodup_map hnd hyf.1 h (hyt.trans (hxt'.symm.trans hxt))
    have hpy := hyf.2
    rw [hyr] at hpy
    simp only [Bool.and_eq_true, decide_eq_true_eq] at hpy
    exact hout hpy

/-- Witness for the amended C1 on the duplicate-title example: the canonical
"FILM" row (5 million admissions, first-seen date 2009-12-15) lies in the
2000s decade frame with its full all-time admissions. -/
theorem C1_witness :
    (⟨"FILM", 5, "US", ⟨2009, 12, 15⟩⟩ : Row) ∈ canonicalize sampleDup ∧
      (2000 ≤ (⟨"FILM", 5, "US", ⟨2009, 12, 15⟩⟩ : Row).sortie.year ∧
        (⟨"FILM", 5, "US", ⟨2009, 12, 15⟩⟩ : Row).sortie.year ≤ 2009) ∧
      (⟨"FILM", 5, "US", ⟨2009, 12, 15⟩⟩ : Row) ∈
        df_decade 2000 2009 (canonicalize sampleDup) :=
  ⟨by with_unfolding_all decide, by decide,
    (C1_decade_views_filter_aggregated_table sampleDup 2000 2009 _
      (by with_unfolding_all decide)).1 (by decide)⟩

/-- Counterexample to C1 as stated: on the spec's own example the 2000s
decade frame reports 5.0 (not 3.0) for the film, and the 2010s frame has no
row for it (rather than 2.0), because the frames filter the already-summed
table. -/
theorem C1_counterexample :
    ¬ ((((df_decade 2000 2009 (canonicalize sampleDup)).find?
            (fun r => r.titre == "FILM")).map (fun r => r.entrees) = some 3) ∧
       (((df_decade 2010 2019 (canonicalize sampleDup)).find?
            (fun r => r.titre == "FILM")).map (fun r => r.entrees) = some 2)) := by
  with_unfolding_all decide

theorem sort_values_desc_pairwise (l : List Row) :
    (sort_values_desc l).Pairwise (fun a b => b.entrees ≤ a.entrees) := by
  unfold sort_values_desc
  rw [List.pairwise_reverse]
  exact List.sorted_insertionSort rowLE l

/-- C2 (amended): the canonical table and every decade frame are sorted
descending by admissions.  The code guarantees nothing about the relative
order of rows with equal admissions: pandas' default sort kind is unstable,
and the descending sort reverses an ascending argsort, so ties need not
follow the order in which the grouping step emitted the groups. -/
theorem C2_sorted_descending (rows : List Row) (lo hi : Nat) :
    (canonicalize rows).Pairwise (fun a b => b.entrees ≤ a.entrees) ∧
    (df_decade lo hi (canonicalize rows)).Pairwise (fun a b => b.entrees ≤ a.entrees) :=
  ⟨sort_values_desc_pairwise _, sort_values_desc_pairwise _⟩

/-- Counterexample to C2 as stated: two grouped rows share the admissions
value 1; the grouping step emits titles [A, B] but the sorted table does not
keep that relative order. -/
theorem C2_counterexample :
    ((groupAgg sampleTie).map (fun r => r.titre) = ["A", "B"] ∧
      (groupAgg sampleTie).map (fun r => r.entrees) = [1, 1]) ∧
    (canonicalize sampleTie).map (fun r => r.titre) ≠ ["A", "B"] := by
  with_unfolding_all decide

/-- C7: the canonical table has exactly one row per title of the normalized
table, and no row for any other title. -/
theorem C7_one_canonical_row_per_title (rows : List Row) (t : String) :
    (canonicalize rows).countP (fun r => r.titre == t) =
      if t ∈ rows.map (fun r => r.titre) then 1 else 0 := by
  unfold canonicalize
  rw [(sort_values_desc_perm (groupAgg rows)).countP_eq]
  have hkeys : (groupAgg rows).countP (fun r => r.titre == t)
      = (keys rows).countP (fun s => s == t) := by
    rw [← groupAgg_titles rows, List.countP_map]
    rfl
  rw [hkeys]
  by_cases hmem : t ∈ rows.map (fun r => r.titre)
  · rw [if_pos hmem]
    exact List.count_eq_one_of_mem (keys_nodup rows) (keys_mem.mpr hmem)
  · rw [if_neg hmem]
    exact List.count_eq_zero_of_not_mem (fun hc => hmem (keys_mem.mp hc))

/-- The canonical codes the lookup table maps to themselves (a code such as
"MA" or "NZ" appears only as an output of the table, not as a key). -/
def selfCodes : List String :=
  ["US", "GB", "FR", "CA", "AU", "KS", "IT", "DE", "BE", "LUX"]

theorem splitCharList_ne_nil (sep : Char) (l : List Char) : splitCharList sep l ≠ [] := by
  induction l with
  | nil => simp [splitCharList]
  | cons c rest ih =>
    rw [splitCharList]
    cases h : splitCharList sep rest with
    | nil => exact absurd h ih
    | cons g gs =>
      by_cases hc : c = sep
      · simp [hc]
      · simp [hc]

theorem splitCharList_eq_single {sep : Char} {xs : List Char} (h : sep ∉ xs) :
    splitCharList sep xs = [xs] := by
  induction xs with
  | nil => rfl
  | cons c rest ih =>
    have hc : ¬ c = sep := fun he => h (he ▸ List.mem_cons_self c rest)
    have hr : sep ∉ rest := fun hm => h (List.mem_cons_of_mem _ hm)
    rw [splitCharList, ih hr]
    simp [hc]

theorem splitCharList_append {sep : Char} {xs : List Char} (h : sep ∉ xs) (ys : List Char) :
    splitCharList sep (xs ++ sep :: ys) = xs :: splitCharList sep ys := by
  induction xs with
  | nil =>
    rw [List.nil_append, splitCharList]
    cases hys : splitCharList sep ys with
    | nil => exact absurd hys (splitCharList_ne_nil sep ys)
    | cons g gs => simp
  | cons c rest ih =>
    have hc : ¬ c = sep := fun he => h (he ▸ List.mem_cons_self c rest)
    have hr : sep ∉ rest := fun hm => h (List.mem_cons_of_mem _ hm)
    rw [List.cons_append, splitCharList, ih hr]
    simp [hc]

theorem foldl_append_shift (sep : String) (ys : List String) :
    ∀ a b : String,
      ys.foldl (fun acc z => acc ++ sep ++ z) (a ++ b)
        = a ++ ys.foldl (fun acc z => acc ++ sep ++ z) b := by
  induction ys with
  | nil => intro a b; rfl
  | cons y ys ih =>
    intro a b
    rw [List.foldl_cons, List.foldl_cons]
    have h1 : a ++ b ++ sep ++ y = a ++ (b ++ sep ++ y) := by
      simp [String.append_assoc]
    rw [h1, ih]

theorem join_with_cons (sep c y : String) (ys : List String) :
    join_with sep (c :: y :: ys) = c ++ sep ++ join_with sep (y :: ys) := by
  show (y :: ys).foldl (fun acc z => acc ++ sep ++ z) c
      = c ++ sep ++ ys.foldl (fun acc z => acc ++ sep ++ z) y
  rw [List.foldl_cons]
  exact foldl_append_shift sep ys (c ++ sep) y

theorem selfCode_no_slash : ∀ c ∈ selfCodes, ('/' : Char) ∉ c.data := by decide

theorem selfCode_encode1 : ∀ c ∈ selfCodes,
    (nationality_mapping.lookup (strip c)).getD c = c := by decide

theorem selfCode_encode1_rpad : ∀ c ∈ selfCodes,
    (nationality_mapping.lookup (strip (String.mk (c.data ++ [' '])))).getD
      (String.mk (c.data ++ [' '])) = c := by decide

theorem selfCode_encode1_lpad : ∀ c ∈ selfCodes,
    (nationality_mapping.lookup (strip (String.mk (' ' :: c.data)))).getD
      (String.mk (' ' :: c.data)) = c := by decide

theorem selfCode_encode1_bpad : ∀ c ∈ selfCodes,
    (nationality_mapping.lookup (strip (String.mk (' ' :: c.data ++ [' '])))).getD
      (String.mk (' ' :: c.data ++ [' '])) = c := by decide

theorem encode_fields_spaced (cs : List String) (hne : cs ≠ [])
    (h : ∀ x ∈ cs, x ∈ selfCodes) :
    (splitCharList '/' (' ' :: (join_with " / " cs).data)).map
      (fun l => (nationality_mapping.lookup (strip (String.mk l))).getD (String.mk l))
      = cs := by
  induction cs with
  | nil => exact absurd rfl hne
  | cons c cs ih =>
    have hc : c ∈ selfCodes := h c (by simp)
    cases cs with
    | nil =>
      have hns : ('/' : Char) ∉ ' ' :: c.data := by
        intro hm
        rcases List.mem_cons.mp hm with he | hm'
        · exact absurd he (by decide)
        · exact selfCode_no_slash c hc hm'
      show (splitCharList '/' (' ' :: c.data)).map
          (fun l => (nationality_mapping.lookup (strip (String.mk l))).getD (String.mk l))
          = [c]
      rw [splitCharList_eq_single hns]
      simp only [List.map_cons, List.map_nil]
      rw [selfCode_encode1_lpad c hc]
    | cons y ys =>
      have hsep : (" / " : String).data = [' ', '/', ' '] := rfl
      have hdata : ' ' :: (c ++ " / " ++ join_with " / " (y :: ys)).data
          = (' ' :: c.data ++ [' ']) ++ '/' :: (' ' :: (join_with " / " (y :: ys)).data) := by
        simp [hsep, List.append_assoc]
      have hslash : ('/' : Char) ∉ ' ' :: c.data ++ [' '] := by
        intro hm
        rcases List.mem_cons.mp hm with he | hm'
        · exact absurd he (by decide)
        · rcases List.mem_append.mp hm' with hm'' | hm''
          · exact selfCode_no_slash c hc hm''
          · exact absurd (List.mem_singleton.mp hm'') (by decide)
      rw [join_with_cons, hdata, splitCharList_append hslash, List.map_cons,
        selfCode_encode1_bpad c hc,
        ih (by simp) (fun x hx => h x (List.mem_cons_of_mem _ hx))]

/-- C5 (amended): nationality encoding is idempotent on split-canonical
strings assembled from any number (one or more) of components that are codes
the lookup table maps to themselves — in particular on "US" and "US / FR" —
but not on every string: an unknown component is preserved with its original
surrounding spacing, so re-encoding a composite containing one pads the
separator again. -/
theorem C5_idempotent_on_self_mapped_codes (cs : List String) (hne : cs ≠ [])
    (h : ∀ c ∈ cs, c ∈ selfCodes) :
    encode_nationality (join_with " / " cs) = join_with " / " cs := by
  cases cs with
  | nil => exact absurd rfl hne
  | cons c cs =>
    have hc : c ∈ selfCodes := h c (by simp)
    cases cs with
    | nil =>
      show join_with " / " (((splitCharList '/' c.data).map String.mk).map
          (fun country => (nationality_mapping.lookup (strip country)).getD country)) = c
      rw [splitCharList_eq_single (selfCode_no_slash c hc)]
      simp only [List.map_cons, List.map_nil]
      have hmk : String.mk c.data = c := rfl
      rw [hmk, selfCode_encode1 c hc]
      rfl
    | cons y ys =>
      have hsep : (" / " : String).data = [' ', '/', ' '] := rfl
      have hdata : (c ++ " / " ++ join_with " / " (y :: ys)).data
          = (c.data ++ [' ']) ++ '/' :: (' ' :: (join_with " / " (y :: ys)).data) := by
        simp [hsep, List.append_assoc]
      have hslash : ('/' : Char) ∉ c.data ++ [' '] := by
        intro hm
        rcases List.mem_append.mp hm with hm' | hm'
        · exact selfCode_no_slash c hc hm'
        · exact absurd (List.mem_singleton.mp hm') (by decide)
      have hfields :
          (splitCharList '/' ((join_with " / " (c :: y :: ys)).data)).map
            (fun l => (nationality_mapping.lookup (strip (String.mk l))).getD (String.mk l))
            = c :: y :: ys := by
        rw [join_with_cons, hdata, splitCharList_append hslash, List.map_cons]
        have hhead : (nationality_mapping.lookup (strip (String.mk (c.data ++ [' '])))).getD
            (String.mk (c.data ++ [' '])) = c := selfCode_encode1_rpad c hc
        rw [hhead, encode_fields_spaced (y :: ys) (by simp)
          (fun x hx => h x (List.mem_cons_of_mem _ hx))]
      show join_with " / "
          (((splitCharList '/' ((join_with " / " (c :: y :: ys)).data)).map String.mk).map
            (fun country => (nationality_mapping.lookup (strip country)).getD country))
          = join_with " / " (c :: y :: ys)
      rw [List.map_map]
      simp only [Function.comp_def]
      rw [hfields]

/-- Witness for the amended C5 at the claim's own examples: the composites
["US"] and ["US", "FR"] are nonempty lists of self-mapped codes, and
encoding leaves "US" and "US / FR" unchanged. -/
theorem C5_witness :
    ((["US", "FR"] : List String) ≠ [] ∧ "US" ∈ selfCodes ∧ "FR" ∈ selfCodes) ∧
      encode_nationality "US" = "US" ∧ encode_nationality "US / FR" = "US / FR" := by
  refine ⟨⟨by decide, by decide, by decide⟩, ?_, ?_⟩
  · exact C5_idempotent_on_self_mapped_codes ["US"] (by decide) (by decide)
  · have h2 := C5_idempotent_on_self_mapped_codes ["US", "FR"] (by decide) (by decide)
    have hj : join_with " / " ["US", "FR"] = "US / FR" := by decide
    rw [hj] at h2
    exact h2

/-- Counterexample to C5 as stated: encoding is not idempotent on every
input — re-encoding the output of "RURITANIA/ELBONIA" changes it, because
the unknown components keep the spaces the first pass introduced and the
second pass inserts the separator again. -/
theorem C5_counterexample :
    encode_nationality (encode_nationality "RURITANIA/ELBONIA")
      ≠ encode_nationality "RURITANIA/ELBONIA" := by
  decide

/-- C6: encoding splits on "/", maps each trimmed component through the
table, keeps unknown components verbatim, and rejoins with " / ", for any
number of components: two known, known plus unknown, and three known. -/
theorem C6_component_wise_mapping :
    encode_nationality "ETATS UNIS/FRANCE" = "US / FR" ∧
    encode_nationality "ETATS UNIS/RURITANIA" = "US / RURITANIA" ∧
    encode_nationality "ETATS UNIS/FRANCE/BELGIQUE" = "US / FR / BE" := by
  decide

/-- C8: a workbook missing either required non-data sheet name ("Sommaire"
or "ESRI_MAPINFO_SHEET") makes the load fail rather than proceed. -/
theorem C8_missing_nondata_sheet_fatal {α : Type} (d : List (String × α))
    (h : "Sommaire" ∉ d.map Prod.fst ∨ "ESRI_MAPINFO_SHEET" ∉ d.map Prod.fst) :
    drop_useless_sheets d = none := by
  rcases h with h | h
  · have h1 : ¬ d.any (fun p => p.1 == "Sommaire") = true := by
      intro hany
      rcases List.any_eq_true.mp hany with ⟨p, hp, hpe⟩
      exact h (List.mem_map.mpr ⟨p, hp, by simpa using hpe⟩)
    unfold drop_useless_sheets pop
    rw [if_neg h1]
    rfl
  · by_cases h1 : d.any (fun p => p.1 == "Sommaire") = true
    · have h2 : ¬ (d.filter (fun p => p.1 != "Sommaire")).any
          (fun p => p.1 == "ESRI_MAPINFO_SHEET") = true := by
        intro hany
        rcases List.any_eq_true.mp hany with ⟨p, hp, hpe⟩
        exact h (List.mem_map.mpr ⟨p, (List.mem_filter.mp hp).1, by simpa using hpe⟩)
      unfold drop_useless_sheets pop
      rw [if_pos h1, Option.some_bind, if_neg h2]
    · unfold drop_useless_sheets pop
      rw [if_neg h1]
      rfl

/-- Witness for C8: a workbook holding only a "Sommaire" sheet (so lacking
"ESRI_MAPINFO_SHEET") fails to load. -/
theorem C8_witness :
    "ESRI_MAPINFO_SHEET" ∉ ([("Sommaire", 0)] : List (String × Nat)).map Prod.fst ∧
      drop_useless_sheets ([("Sommaire", 0)] : List (String × Nat)) = none :=
  ⟨by decide, C8_missing_nondata_sheet_fatal _ (Or.inr (by decide))⟩

/-- C10: with the distinct column labels produced by the sheet loader, the
first column is renamed to "rang" exactly when some column is labeled
"Unnamed: 0", every other column keeps its label, and a sheet without an
"Unnamed: 0" column is left unchanged. -/
theorem C10_rename_first_column (cols : List String) (h : cols.Nodup) :
    renameRang cols = if "Unnamed: 0" ∈ cols then "rang" :: cols.tail else cols := by
  by_cases hmem : "Unnamed: 0" ∈ cols
  · rw [if_pos hmem]
    unfold renameRang
    rw [if_pos hmem]
    cases cols with
    | nil => cases hmem
    | cons c rest =>
      show (c :: rest).map (fun x => if x = c then "rang" else x) = "rang" :: (c :: rest).tail
      rw [List.map_cons, if_pos rfl]
      rw [List.nodup_cons] at h
      have hrest : ∀ x ∈ rest, (if x = c then "rang" else x) = x := by
        intro x hx
        rw [if_neg]
        exact fun he => h.1 (he ▸ hx)
      have := List.map_congr_left hrest
      simpa using this
  · rw [if_neg hmem]
    unfold renameRang
    rw [if_neg hmem]

/-- Witness for C10 at a two-column sheet whose first column is unnamed. -/
theorem C10_witness :
    (["Unnamed: 0", "titre"] : List String).Nodup ∧
      renameRang ["Unnamed: 0", "titre"]
        = if "Unnamed: 0" ∈ (["Unnamed: 0", "titre"] : List String)
          then "rang" :: (["Unnamed: 0", "titre"] : List String).tail
          else ["Unnamed: 0", "titre"] :=
  ⟨by decide, C10_rename_first_column _ (by decide)⟩

end DataVz
